import Mathlib

/-!
Formal model of the conversational-memory core of the kimi-cli repository.

The Python sources are embedded shallowly:

* `memory/models/data.py`   → `Session`, `Message`, `RecallResult`, `SearchQuery`
* `memory/adapters/storage/sqlite.py` → `Store` and its operations
  (`get_session`, `delete_session`, `get_messages`, `get_recent_messages`,
  `update_session`, `update_embedding`, `bm25_similarity`)
* `memory/adapters/storage/base.py`   → `search_hybrid`
* `memory/services/index_manager.py`  → `extract_keywords`, `generate_summary`,
  `index_session`, `should_index`
* `memory/services/recall_engine.py`  → `time_decay_factor`, `decayed_score`
* `memory/commands/recall_cmd.py`     → `analyze` (QueryAnalyzer)
* `memory/adapters/embedding/onnx.py` → `mock_embed` (MockEmbedding)

Python floats are modelled as exact rationals (`ℚ`) where the code only
compares, adds and multiplies scores, and as reals (`ℝ`) where `exp`/`sqrt`
enter.  Machine clock reads (`time.time()`, `datetime.now().timestamp()`)
are passed in as explicit `now` parameters.
-/

namespace KimiMemory

set_option maxRecDepth 10000

/-- Sync status of a session; models `SyncStatus` in `memory/models/data.py`. -/
inductive SyncStatus where
  | localStatus
  | syncing
  | synced
  | errorStatus
deriving DecidableEq, Repr

/-- A session row; models the `Session` dataclass in `memory/models/data.py`
and the `sessions` table of `sqlite.py`. -/
structure Session where
  id : String
  title : String
  summary : Option String
  keywords : List String
  created_at : Int
  updated_at : Int
  token_count : Int
  work_dir : Option String
  is_archived : Bool
  sync_status : SyncStatus
  sync_version : Int
deriving DecidableEq, Repr

/-- A message row; models the `Message` dataclass in `memory/models/data.py`
and the `messages` table of `sqlite.py`. -/
structure Message where
  id : Option Int
  session_id : String
  role : String
  content : String
  token_count : Int
  timestamp : Int
  has_code : Bool
  code_language : Option String
deriving DecidableEq, Repr

/-- Insert `a` into `l`, keeping every element `x` with `lt x a` before it.
Together with `stableSort` this models a stable sort: SQLite `ORDER BY` on a
scan and Python `list.sort` are modelled as stable. -/
def insertBefore {α : Type} (lt : α → α → Bool) (a : α) : List α → List α
  | [] => [a]
  | x :: xs => if lt x a then x :: insertBefore lt a xs else a :: x :: xs

/-- Stable sort: an element placed before all strictly-greater ones keeps
original relative order among ties. -/
def stableSort {α : Type} (lt : α → α → Bool) : List α → List α
  | [] => []
  | x :: xs => insertBefore lt x (stableSort lt xs)

/-- The database state of `SQLiteStorage` (`sqlite.py`): the `sessions` and
`messages` tables, the `vec_available` flag, and the `session_vectors`
virtual table as an association list. The FTS5 mirror of `sessions` is kept
in sync by triggers and carries no state of its own, so it is not modelled
separately. -/
structure Store where
  sessions : List Session
  messages : List Message
  vec_available : Bool
  embeddings : List (String × List ℚ)
deriving DecidableEq, Repr

/-- Models `SQLiteStorage.get_session`: `SELECT * FROM sessions WHERE id = ?`
(first row). -/
def get_session (st : Store) (sid : String) : Option Session :=
  st.sessions.find? (fun s => s.id == sid)

/-- Models `SQLiteStorage.delete_session`: `DELETE FROM sessions WHERE id = ?`.
The `messages` table declares `ON DELETE CASCADE`, but the code never issues
`PRAGMA foreign_keys = ON`, and Python's `sqlite3` leaves foreign-key
enforcement OFF by default, so the delete touches only the `sessions` table;
messages of the deleted session remain. -/
def delete_session (st : Store) (sid : String) : Store :=
  { st with sessions := st.sessions.filter (fun s => s.id != sid) }

/-- The rows of the `messages` table belonging to a session. -/
def messages_of (st : Store) (sid : String) : List Message :=
  st.messages.filter (fun m => m.session_id == sid)

/-- Strict timestamp order used for `ORDER BY timestamp`. -/
def timeLt (a b : Message) : Bool := decide (a.timestamp < b.timestamp)

/-- Models `SQLiteStorage.get_messages`:
`SELECT * FROM messages WHERE session_id = ? ORDER BY timestamp LIMIT ? OFFSET ?`. -/
def get_messages (st : Store) (sid : String) (limit offset : Nat) : List Message :=
  (((stableSort timeLt (messages_of st sid)).drop offset).take limit)

/-- Models `SQLiteStorage.get_recent_messages`: the last `n` rows in
timestamp order, returned time-ascending (the code reverses the
`ORDER BY timestamp DESC LIMIT n` result). -/
def get_recent_messages (st : Store) (sid : String) (n : Nat) : List Message :=
  (((stableSort timeLt (messages_of st sid)).reverse).take n).reverse

/-- Models `SQLiteStorage.update_session`: sets `updated_at` to the current
time, then rewrites every column of the rows `WHERE id = ?`. -/
def update_session (st : Store) (now : Int) (s : Session) : Store :=
  { st with sessions :=
      st.sessions.map (fun t => if t.id == s.id then { s with updated_at := now } else t) }

/-- Models `SQLiteStorage.update_embedding`: a no-op when `sqlite-vec` is
unavailable, otherwise delete-then-insert into `session_vectors`. -/
def update_embedding (st : Store) (sid : String) (e : List ℚ) : Store :=
  if st.vec_available then
    { st with embeddings := st.embeddings.filter (fun p => p.1 != sid) ++ [(sid, e)] }
  else st

/-- Models the score mapping of `SQLiteStorage.search_by_keywords`:
`similarity = 1.0 / (1.0 + abs(bm25_score))`. -/
def bm25_similarity (raw : ℚ) : ℚ := 1 / (1 + |raw|)

/-! ### Index manager: keyword extraction (`IndexManager._extract_keywords`)

The regexes of `_extract_keywords` run with Python's default Unicode `\w`.
The model fixes the working alphabet to ASCII plus the CJK unified block
`一`–`龥` that the code's second regex names; on that alphabet the
word-character test below agrees with Python's `\w`. -/

/-- ASCII `[a-zA-Z_]`: a legal first char of the identifier regex. -/
def isIdentStart (c : Char) : Bool := c.isAlpha || c == '_'

/-- ASCII `[a-zA-Z0-9_]`: a continuation char of the identifier regex. -/
def isIdentChar (c : Char) : Bool := c.isAlphanum || c == '_'

/-- A CJK unified ideograph, the class `[一-龥]`. -/
def isCJK (c : Char) : Bool := decide (0x4e00 ≤ c.toNat ∧ c.toNat ≤ 0x9fa5)

/-- Python's `\w`, restricted to the ASCII ∪ CJK alphabet of the model. -/
def isWordChar (c : Char) : Bool := isIdentChar c || isCJK c

/-- Split a char list into maximal runs on which `p` is constant, tagging each
run with its `p`-value. -/
def charRuns (p : Char → Bool) : List Char → List (Bool × List Char)
  | [] => []
  | c :: cs =>
    match charRuns p cs with
    | [] => [(p c, [c])]
    | (b, r) :: rest =>
      if p c == b then (p c, c :: r) :: rest else (p c, [c]) :: (b, r) :: rest

/-- From tagged runs, keep the `true` runs whose neighbouring characters are
not word characters: exactly the candidates of a `\b…\b`-delimited match
(interior positions of a run never carry a word boundary). `prev` is the
character immediately before the current run. -/
def boundedRuns (prev : Option Char) : List (Bool × List Char) → List (List Char)
  | [] => []
  | (b, r) :: rest =>
    let prevOk := match prev with
      | some pc => !(isWordChar pc)
      | none => true
    let nextOk := match rest with
      | [] => true
      | (_, r2) :: _ =>
        match r2.head? with
        | some n => !(isWordChar n)
        | none => true
    (if b && prevOk && nextOk then [r] else []) ++ boundedRuns r.getLast? rest

/-- Tokens of `re.findall(r'\b[a-zA-Z_][a-zA-Z0-9_]*\b', text)`: maximal
identifier-char runs, starting with a non-digit, flanked by non-word
characters (or the ends of the text). -/
def asciiTokens (s : List Char) : List String :=
  ((boundedRuns none (charRuns isIdentChar s)).filter
      (fun r => match r.head? with
        | some c => isIdentStart c
        | none => false)).map (fun r => String.mk r)

/-- Greedy split of one maximal CJK run into the matches of
`[一-龥]{2,4}`: chunks of 4, then the remainder if it has ≥ 2 chars. -/
def cjkChunks (run : List Char) : List (List Char) :=
  if _h : 4 ≤ run.length then
    run.take 4 :: cjkChunks (run.drop 4)
  else if 2 ≤ run.length then [run] else []
termination_by run.length
decreasing_by
  simp only [List.length_drop]
  omega

/-- Tokens of `re.findall(r'[一-龥]{2,4}', text)`. -/
def cjkTokens (s : List Char) : List String :=
  ((charRuns isCJK s).foldr
      (fun br acc => (if br.1 then cjkChunks br.2 else []) ++ acc) []).map
    (fun r => String.mk r)

/-- All raw tokens counted by `_extract_keywords`: `tech_words + chinese_words`. -/
def all_tokens (s : List Char) : List String := asciiTokens s ++ cjkTokens s

/-- Python's `" | ".join` / `" ".join` on char lists. -/
def joinSep (sep : List Char) : List (List Char) → List Char
  | [] => []
  | [x] => x
  | x :: xs => x ++ sep ++ joinSep sep xs

/-- The concatenation of all user-message contents, `" ".join(...)`. -/
def user_text (msgs : List Message) : List Char :=
  joinSep " ".data ((msgs.filter (fun m => m.role == "user")).map (fun m => m.content.data))

/-- The stop-word set of `_extract_keywords` (a Python `set` literal;
duplicates collapse). -/
def stop_words : List String :=
  ["the", "a", "an", "is", "are", "was", "were", "be", "been",
   "have", "has", "had", "do", "does", "did", "will", "would",
   "could", "should", "may", "might", "must", "shall", "can",
   "need", "dare", "ought", "used", "to", "of", "in", "for",
   "on", "with", "at", "by", "from", "as", "into", "through",
   "during", "before", "after", "above", "below", "between",
   "你", "我", "他", "她", "它", "的", "了", "在", "是", "有",
   "和", "就", "不", "人", "都", "一", "一个", "上", "也", "很",
   "到", "说", "要", "去", "会", "着", "没有", "看", "好",
   "自己", "这", "那", "怎么", "什么", "吗", "呢", "吧", "啊"]

/-- ASCII lower-casing of a token, Python `word.lower()` on the model
alphabet (CJK chars are unaffected). -/
def lowerStr (w : String) : String := String.mk (w.data.map Char.toLower)

/-- The filter of `_extract_keywords`:
`word.lower() not in stop_words and len(word) > 1`. -/
def tokenQualifies (w : String) : Bool :=
  !(stop_words.contains (lowerStr w)) && decide (1 < w.data.length)

/-- The qualifying tokens of a message list: tokens of the user text that
survive the stop-word/length filter (with multiplicity). -/
def qualifying_tokens (msgs : List Message) : List String :=
  (all_tokens (user_text msgs)).filter tokenQualifies

/-- First-occurrence deduplication: the key order of a Python
`Counter`/`dict` built by insertion. -/
def dedupFirst : List String → List String
  | [] => []
  | x :: xs => x :: dedupFirst (xs.filter (fun y => y != x))
termination_by l => l.length
decreasing_by
  exact Nat.lt_succ_of_le (List.length_filter_le _ _)

/-- Models `IndexManager._extract_keywords`: tokenize the user text, count
frequencies, drop stop words and one-char tokens, and return the top 10 by
frequency, ties in first-seen order (`Counter.most_common` is a stable
descending sort). -/
def extract_keywords (msgs : List Message) : List String :=
  let ut := user_text msgs
  if ut.isEmpty then []
  else
    let toks := all_tokens ut
    (stableSort (fun a b => decide (toks.count b < toks.count a))
        ((dedupFirst toks).filter tokenQualifies)).take 10

/-- One summary piece of `IndexManager._generate_summary`:
`msg.content[:100]`, plus `"..."` when the content was longer. -/
def truncPreview (content : List Char) : List Char :=
  if 100 < content.length then content.take 100 ++ "...".data else content

/-- Models `IndexManager._generate_summary`: join the first three user
messages' previews with `" | "`; if the join exceeds 200 chars, cut to 200
and append `"..."`. A session without user messages summarizes to
`"Empty session"`. -/
def generate_summary (msgs : List Message) : List Char :=
  let users := msgs.filter (fun m => m.role == "user")
  if users.isEmpty then "Empty session".data
  else
    let s := joinSep " | ".data ((users.take 3).map (fun m => truncPreview m.content.data))
    if 200 < s.length then s.take 200 ++ "...".data else s

/-- The text payload embedded by `IndexManager._generate_embedding`:
title, then the (truthy) summary, then the keywords, then the first five
user messages cut to 100 chars, joined by single spaces. -/
def embedding_text (s : Session) (msgs : List Message) : String :=
  let parts : List (List Char) :=
    [s.title.data] ++
    (match s.summary with
     | some x => if x.data.isEmpty then [] else [x.data]
     | none => []) ++
    (s.keywords.map (fun k => k.data)) ++
    (((msgs.filter (fun m => m.role == "user")).map (fun m => m.content.data.take 100)).take 5)
  String.mk (joinSep " ".data parts)

/-- Models `IndexManager.index_session`.  `embed?` is the optional embedding
provider; `now` is the clock read inside `update_session`.  Returns the
success flag and the new store. -/
def index_session (embed? : Option (String → List ℚ)) (now : Int)
    (st : Store) (sid : String) : Bool × Store :=
  match get_session st sid with
  | none => (false, st)
  | some session =>
    let msgs := get_messages st sid 1000 0
    if msgs.isEmpty then (false, st)
    else
      let s1 := { session with
        keywords := extract_keywords msgs,
        summary := some (String.mk (generate_summary msgs)),
        token_count := (msgs.map (fun m => m.token_count)).sum }
      let st1 := update_session st now s1
      let st2 := match embed? with
        | none => st1
        | some f =>
          let e := f (embedding_text s1 msgs)
          if e.isEmpty then st1 else update_embedding st1 sid e
      (true, st2)

/-- Models `IndexManager.should_index`.  `now` is the float clock read
(`datetime.now().timestamp()`), kept exact as a rational. -/
def should_index (st : Store) (now : ℚ) (sid : String) : Bool :=
  match get_session st sid with
  | none => false
  | some s =>
    if s.keywords.isEmpty then true
    else
      let n := (get_messages st sid 100 0).length
      if n % 5 == 0 && decide (0 < n) then true
      else decide (600 < now - (s.updated_at : ℚ))

/-! ### Hybrid search (`StorageBackend.search_hybrid` in `base.py`)

`SQLiteStorage` does not override `search_hybrid`, so the executed code is
the default implementation over the SQLite primitives.  The two index-backed
legs (`search_by_keywords` over FTS5 / `search_by_vector` over sqlite-vec)
are kept as function parameters; `get_session` and `get_recent_messages` are
the store model's. -/

/-- Transient search result; models the `RecallResult` dataclass
(`matched_keywords` is never written by the modelled code paths). -/
structure RecallResult where
  session : Session
  vector_score : ℚ := 0
  keyword_score : ℚ := 0
  combined_score : ℚ := 0
  context_messages : List Message := []
  matched_keywords : List String := []
deriving Repr

/-- Models the `SearchQuery` dataclass. -/
structure SearchQuery where
  text : Option String := none
  embedding : Option (List ℚ) := none
  session_id_to_exclude : Option String := none
  top_k : Nat := 5
  min_score : ℚ := 0.75
  time_decay_factor : ℚ := 0.001
  vector_weight : ℚ := 0.6
  keyword_weight : ℚ := 0.4

/-- One step of the keyword loop of `search_hybrid`: skip the excluded id,
update `keyword_score` by `max` when the session is already present,
otherwise fetch the session and append a fresh entry (insertion-ordered
dict). -/
def upsertKeyword (st : Store) (ex : Option String)
    (acc : List (String × RecallResult)) (hit : String × ℚ) :
    List (String × RecallResult) :=
  if ex == some hit.1 then acc
  else if acc.any (fun p => p.1 == hit.1) then
    acc.map (fun p =>
      if p.1 == hit.1 then
        (p.1, { p.2 with keyword_score := max p.2.keyword_score hit.2 })
      else p)
  else
    match get_session st hit.1 with
    | some s =>
      acc ++ [(hit.1, { session := s, keyword_score := hit.2,
                        context_messages := get_recent_messages st hit.1 3 })]
    | none => acc

/-- One step of the vector loop of `search_hybrid`; as `upsertKeyword` but
for `vector_score`. -/
def upsertVector (st : Store) (ex : Option String)
    (acc : List (String × RecallResult)) (hit : String × ℚ) :
    List (String × RecallResult) :=
  if ex == some hit.1 then acc
  else if acc.any (fun p => p.1 == hit.1) then
    acc.map (fun p =>
      if p.1 == hit.1 then
        (p.1, { p.2 with vector_score := max p.2.vector_score hit.2 })
      else p)
  else
    match get_session st hit.1 with
    | some s =>
      acc ++ [(hit.1, { session := s, vector_score := hit.2,
                        context_messages := get_recent_messages st hit.1 3 })]
    | none => acc

/-- The keyword loop of `search_hybrid`: runs only when the query has truthy
text, over `search_by_keywords(text, top_k * 2)`, starting from the empty
result dict. -/
def hybrid_keyword_pass (st : Store)
    (kwSearch : String → Nat → List (String × ℚ))
    (q : SearchQuery) : List (String × RecallResult) :=
  match q.text with
  | some t =>
    if t.data.isEmpty then []
    else (kwSearch t (q.top_k * 2)).foldl (upsertKeyword st q.session_id_to_exclude) []
  | none => []

/-- The result dict of `search_hybrid` after both loops: the vector loop
runs only when the query has a truthy embedding, over
`search_by_vector(embedding, top_k * 2)`. -/
def hybrid_merged (st : Store)
    (kwSearch : String → Nat → List (String × ℚ))
    (vecSearch : List ℚ → Nat → List (String × ℚ))
    (q : SearchQuery) : List (String × RecallResult) :=
  match q.embedding with
  | some e =>
    if e.isEmpty then hybrid_keyword_pass st kwSearch q
    else (vecSearch e (q.top_k * 2)).foldl (upsertVector st q.session_id_to_exclude)
      (hybrid_keyword_pass st kwSearch q)
  | none => hybrid_keyword_pass st kwSearch q

/-- The final scoring step of `search_hybrid`: cap both scores at 1 and
take the weighted sum. -/
def combineScores (q : SearchQuery) (r : RecallResult) : RecallResult :=
  { r with combined_score := min r.vector_score 1 * q.vector_weight + min r.keyword_score 1 * q.keyword_weight }

/-- Models `StorageBackend.search_hybrid`: run the two legs with
`top_k * 2` when the query carries (truthy) text / embedding, merge into an
insertion-ordered map, cap both scores at 1 and combine them with the query
weights, then sort descending by combined score (Python's stable sort) and
truncate to `top_k`. -/
def search_hybrid (st : Store)
    (kwSearch : String → Nat → List (String × ℚ))
    (vecSearch : List ℚ → Nat → List (String × ℚ))
    (q : SearchQuery) : List RecallResult :=
  let scored := (hybrid_merged st kwSearch vecSearch q).map (fun p => combineScores q p.2)
  (stableSort (fun a b => decide (a.combined_score > b.combined_score)) scored).take q.top_k

/-! ### Recall engine time decay (`RecallEngine._apply_time_decay`) -/

/-- The decay multiplier: `exp(-0.001 * days_old)` with
`days_old = (now - updated_at) / 86400`. -/
noncomputable def time_decay_factor (now updated_at : ℝ) : ℝ :=
  Real.exp (-(0.001) * ((now - updated_at) / 86400))

/-- A combined score after `RecallEngine._apply_time_decay`:
`combined_score *= time_factor`. -/
noncomputable def decayed_score (score now updated_at : ℝ) : ℝ :=
  score * time_decay_factor now updated_at

/-! ### Query analyzer (`QueryAnalyzer.analyze` in `recall_cmd.py`) -/

/-- Substring containment on char lists: the reach of `re.search` for a
regex that is an alternation of literals. -/
def containsSub (pat : List Char) : List Char → Bool
  | [] => pat.isEmpty
  | c :: cs => pat.isPrefixOf (c :: cs) || containsSub pat cs

/-- Does `s` contain any of the literal alternatives? -/
def containsAny (pats : List String) (s : List Char) : Bool :=
  pats.any (fun p => containsSub p.data s)

/-- Python `str.lower()` on the model alphabet (ASCII case only). -/
def lowerChars (s : List Char) : List Char := s.map Char.toLower

/-- The extension alternatives of the first file pattern. -/
def extTokens : List String :=
  ["py", "js", "ts", "go", "rs", "java", "cpp", "c", "h", "md", "json",
   "yml", "yaml", "toml", "sh", "bash", "zsh"]

/-- `re.search(r'[\w\-]+\.(py|…)', query, re.IGNORECASE)`: somewhere a
word-or-hyphen char is followed by a dot and one of the extensions
(matched case-insensitively). -/
def matchesExtDot : List Char → Bool
  | c1 :: c2 :: rest =>
    ((isWordChar c1 || c1 == '-') && c2 == '.' &&
        extTokens.any (fun e => e.data.isPrefixOf (lowerChars rest))) ||
      matchesExtDot (c2 :: rest)
  | _ => false

/-- `re.search(r'\.\w+$', query)`: the text ends in a dot followed by one or
more word characters. -/
def matchesDotEnd : List Char → Bool
  | [] => false
  | c :: rest =>
    (c == '.' && !rest.isEmpty && rest.all isWordChar) || matchesDotEnd rest

/-- The literal alternatives of the third file pattern (lower case; the
pattern runs with `re.IGNORECASE`). -/
def fileWords : List String :=
  ["文件", "file", "路径", "path", "目录", "folder", "config", "配置"]

/-- The literal alternatives of the first error pattern. -/
def errorWords : List String :=
  ["错误", "error", "exception", "bug", "崩溃", "crash", "fail", "失败",
   "报错", "traceback", "stack trace"]

/-- `re.search(r'\b\d{3,4}\b', s)`: a maximal digit run of length 3 or 4
flanked by non-word characters or the ends of the text. -/
def matchesDigitCode (s : List Char) : Bool :=
  (boundedRuns none (charRuns Char.isDigit s)).any
    (fun r => r.length == 3 || r.length == 4)

/-- Continuation matching for `.*PAT…`: scan forward over non-newline
characters (`.` does not match a newline) until `pat` matches, then run the
continuation on the remainder. -/
def findThen (pat : List Char) (k : List Char → Bool) : List Char → Bool
  | [] => pat.isEmpty && k []
  | c :: cs =>
    (pat.isPrefixOf (c :: cs) && k ((c :: cs).drop pat.length)) ||
      (c != '\n' && findThen pat k cs)

/-- `re.search` for `a.*b.*c` (no DOTALL): an occurrence of `a`, then `b`,
then `c`, with no newline inside the gaps. -/
def matchesSeq3 (a b c : List Char) : List Char → Bool
  | [] => false
  | x :: xs =>
    (a.isPrefixOf (x :: xs) &&
        findThen b (findThen c (fun _ => true)) ((x :: xs).drop a.length)) ||
      matchesSeq3 a b c xs

/-- The `VAGUE_RECALL_PATTERNS` of `recall_cmd.py`.  `那个\w+` is subsumed by
the alternative `那个`; the final pattern is the two `.*`-chains. -/
def matchesVague (s : List Char) : Bool :=
  containsAny ["那个", "之前", "上次", "以前", "刚才", "刚刚"] s ||
  containsAny ["说过", "讨论过", "提过", "聊过", "讲过"] s ||
  containsAny ["记得", "好像", "大概", "似乎", "应该"] s ||
  containsAny ["之前说的", "上次的", "之前的", "之前那个", "刚才的"] s ||
  matchesSeq3 "怎么".data "来".data "着".data s ||
  matchesSeq3 "是什么".data "来".data "着".data s

/-- Models `QueryAnalyzer.analyze`: returns the class name and its
`(vector, keyword)` weights.  The file patterns run on the raw query with
`re.IGNORECASE`; the error and vague patterns run on `query.lower()`.
First match wins, in the order file_lookup, error_debug, vague_recall,
technical. -/
def analyze (query : String) : String × ℚ × ℚ :=
  let q := query.data
  let ql := lowerChars q
  if matchesExtDot q || matchesDotEnd q || containsAny fileWords ql then
    ("file_lookup", 0.3, 0.7)
  else if containsAny errorWords ql || matchesDigitCode ql then
    ("error_debug", 0.5, 0.5)
  else if matchesVague ql then
    ("vague_recall", 0.8, 0.2)
  else
    ("technical", 0.6, 0.4)

/-! ### Mock embedding (`MockEmbedding` in `onnx.py`)

`embed` seeds `random.Random` with the MD5 of the text and draws 384
uniform floats.  MD5 and the Mersenne-Twister stream are modelled as
abstract functions `md5` and `draw`: a fresh generator seeded with the same
value yields the same stream, so the drawn vector is a function of the
text.  Draws are exact rationals (every Python float is one). -/

/-- The 384 pseudo-random draws for a text: `[rng.uniform(-1,1) for _ in range(384)]`. -/
def mock_draws (md5 : String → ℕ) (draw : ℕ → ℕ → ℚ) (text : String) : List ℚ :=
  (List.range 384).map (draw (md5 text))

/-- Sum of squares of a rational vector. -/
def sumSq (v : List ℚ) : ℚ := (v.map (fun x => x * x)).sum

/-- Models `MockEmbedding.embed`: L2-normalize the drawn vector when its
norm is positive (`norm > 0` iff the sum of squares is positive, which the
model tests directly on the rationals). -/
noncomputable def mock_embed (md5 : String → ℕ) (draw : ℕ → ℕ → ℚ)
    (text : String) : List ℝ :=
  let vec := mock_draws md5 draw text
  let vecR : List ℝ := vec.map (fun x => Rat.cast x)
  if 0 < sumSq vec then
    vecR.map (fun x => x / Real.sqrt (Rat.cast (sumSq vec)))
  else
    vecR

/-- The L2 norm of a real vector, `math.sqrt(sum(x*x for x in vec))`. -/
noncomputable def l2norm (v : List ℝ) : ℝ :=
  Real.sqrt ((v.map (fun x => x * x)).sum)

/-! ### Concrete instances used by the theorems below -/

/-- A sample session used by the concrete stores below. -/
def sampleSession (sid : String) : Session :=
  { id := sid, title := "T", summary := none, keywords := [], created_at := 0,
    updated_at := 0, token_count := 0, work_dir := none, is_archived := false,
    sync_status := SyncStatus.localStatus, sync_version := 1 }

/-- A user message belonging to session `s1`. -/
def sampleMessage : Message :=
  { id := some 1, session_id := "s1", role := "user", content := "hello",
    token_count := 1, timestamp := 10, has_code := false, code_language := none }

/-- Store holding session `s1` with one message: the failing input of the
cascade-delete claim. -/
def cascadeStore : Store :=
  { sessions := [sampleSession "s1"], messages := [sampleMessage],
    vec_available := false, embeddings := [] }

/-- Store with an unindexed session and no messages. -/
def unindexedStore : Store :=
  { sessions := [sampleSession "w9"], messages := [],
    vec_available := false, embeddings := [] }

/-- Store with one session and no messages, vector storage available. -/
def emptySessionStore : Store :=
  { sessions := [sampleSession "w10"], messages := [],
    vec_available := true, embeddings := [] }

/-- C2 counterexample store: session `s2` has exactly one message, and it is
an assistant message, so keyword extraction sees no user text. -/
def assistantOnlyStore : Store :=
  { sessions := [sampleSession "s2"],
    messages := [{ id := some 1, session_id := "s2", role := "assistant",
                   content := "hi", token_count := 1, timestamp := 1,
                   has_code := false, code_language := none }],
    vec_available := false, embeddings := [] }

/-- Store whose session `s3` has one user message with real tokens. -/
def userStore : Store :=
  { sessions := [sampleSession "s3"],
    messages := [{ id := some 1, session_id := "s3", role := "user",
                   content := "hello world hello", token_count := 3, timestamp := 1,
                   has_code := false, code_language := none }],
    vec_available := false, embeddings := [] }

/-- C3 counterexample store: two user messages of 101 chars each.  Each
preview is 103 chars (100 plus `"..."`), the join is 209 chars, so the
stored summary is cut to 200 and gets another `"..."`: 203 chars. -/
def longStore : Store :=
  { sessions := [sampleSession "s4"],
    messages :=
      [{ id := some 1, session_id := "s4", role := "user",
         content := String.mk (List.replicate 101 'a'), token_count := 1,
         timestamp := 1, has_code := false, code_language := none },
       { id := some 2, session_id := "s4", role := "user",
         content := String.mk (List.replicate 101 'b'), token_count := 1,
         timestamp := 2, has_code := false, code_language := none }],
    vec_available := false, embeddings := [] }

/-- Store with two sessions, used to instantiate the hybrid theorems. -/
def twoSessionStore : Store :=
  { sessions := [sampleSession "cur", sampleSession "other"], messages := [],
    vec_available := true, embeddings := [] }

/-- A keyword leg returning both sessions, the excluded one with top score. -/
def wKwSearch : String → Nat → List (String × ℚ) :=
  fun _ _ => [("cur", 1), ("other", 0)]

/-- A vector leg returning the excluded session. -/
def wVecSearch : List ℚ → Nat → List (String × ℚ) :=
  fun _ _ => [("cur", 1)]

/-- A query that excludes session `cur`. -/
def wQueryExclude : SearchQuery :=
  { text := some "Message", embedding := some [1], session_id_to_exclude := some "cur",
    top_k := 5, min_score := 0.75, time_decay_factor := 0.001,
    vector_weight := 0.6, keyword_weight := 0.4 }

/-- A query with text and no embedding. -/
def wQueryLexical : SearchQuery :=
  { text := some "Message", embedding := none, session_id_to_exclude := none,
    top_k := 5, min_score := 0.75, time_decay_factor := 0.001,
    vector_weight := 0.6, keyword_weight := 0.4 }

/-! ### Helper lemmas about the storage model -/

theorem length_insertBefore {α : Type} (lt : α → α → Bool) (a : α) (l : List α) :
    (insertBefore lt a l).length = l.length + 1 := by
  induction l with
  | nil => rfl
  | cons x xs ih =>
    by_cases h : lt x a = true
    · simp [insertBefore, h, ih]
    · simp [insertBefore, h, ih]

theorem length_stableSort {α : Type} (lt : α → α → Bool) (l : List α) :
    (stableSort lt l).length = l.length := by
  induction l with
  | nil => rfl
  | cons x xs ih => simp [stableSort, length_insertBefore, ih]

theorem mem_insertBefore {α : Type} (lt : α → α → Bool) (a y : α) (l : List α) :
    y ∈ insertBefore lt a l ↔ y = a ∨ y ∈ l := by
  induction l with
  | nil => simp [insertBefore]
  | cons x xs ih =>
    by_cases h : lt x a = true
    · simp [insertBefore, h, ih]
      tauto
    · simp [insertBefore, h, ih]

theorem mem_stableSort {α : Type} (lt : α → α → Bool) (y : α) (l : List α) :
    y ∈ stableSort lt l ↔ y ∈ l := by
  induction l with
  | nil => simp [stableSort]
  | cons x xs ih => simp [stableSort, mem_insertBefore, ih]

theorem stableSort_eq_nil_iff {α : Type} (lt : α → α → Bool) (l : List α) :
    stableSort lt l = [] ↔ l = [] := by
  constructor
  · intro h
    have := length_stableSort lt l
    rw [h] at this
    exact List.length_eq_zero.mp this.symm
  · intro h; subst h; rfl

theorem bm25_similarity_le_one (raw : ℚ) : bm25_similarity raw ≤ 1 := by
  unfold bm25_similarity
  have h1 : (1 : ℚ) ≤ 1 + |raw| := by
    have := abs_nonneg raw
    linarith
  have h0 : (0 : ℚ) < 1 + |raw| := by positivity
  rw [div_le_one h0]
  exact h1

theorem bm25_similarity_pos (raw : ℚ) : 0 < bm25_similarity raw := by
  unfold bm25_similarity
  positivity

theorem get_messages_length (st : Store) (sid : String) (limit : Nat) :
    (get_messages st sid limit 0).length = min limit (messages_of st sid).length := by
  unfold get_messages
  rw [List.drop_zero, List.length_take, length_stableSort]

theorem get_messages_eq_nil_iff (st : Store) (sid : String) (limit : Nat)
    (h : 0 < limit) :
    get_messages st sid limit 0 = [] ↔ messages_of st sid = [] := by
  unfold get_messages
  rw [List.drop_zero, List.take_eq_nil_iff, stableSort_eq_nil_iff]
  constructor
  · rintro (h0 | h0)
    · omega
    · exact h0
  · intro h0
    right
    exact h0

theorem get_session_id (st : Store) (sid : String) (s : Session)
    (h : get_session st sid = some s) : s.id = sid := by
  have := List.find?_some h
  simpa using this

/-- C1: the claim states that after `delete_session(s)` the session is gone
and `get_messages(s)` is empty.  The code deletes only the `sessions` row:
the schema declares `ON DELETE CASCADE` on `messages.session_id`, but the
code never turns on `PRAGMA foreign_keys`, which Python's sqlite3 leaves
off, so the cascade is inert and the session's messages survive the
delete.  Evaluated at the failing input: the session is gone but its
message is still returned. -/
theorem delete_session_keeps_messages :
    get_session (delete_session cascadeStore "s1") "s1" = none ∧
    get_messages (delete_session cascadeStore "s1") "s1" 100 0 = [sampleMessage] := by
  constructor
  · rfl
  · rfl

/-- C9: `should_index` returns true whenever the session exists and its
keywords are empty, or its true message count is a positive multiple of 5
(the implementation counts `get_messages` rows with the default limit 100,
and a count capped at 100 is still a positive multiple of 5), or
`now - updated_at` exceeds 600 seconds. -/
theorem should_index_true_of (st : Store) (now : ℚ) (sid : String) (s : Session)
    (hs : get_session st sid = some s)
    (hcond : s.keywords = [] ∨
      (0 < (messages_of st sid).length ∧ (messages_of st sid).length % 5 = 0) ∨
      600 < now - (s.updated_at : ℚ)) :
    should_index st now sid = true := by
  have hlen := get_messages_length st sid 100
  unfold should_index
  rw [hs]
  by_cases hk0 : s.keywords.isEmpty = true
  · simp [hk0]
  · have hkne : ¬ s.keywords = [] := by
      intro h0
      exact hk0 (by simp [h0])
    rcases hcond with hk | hn | ht
    · exact absurd hk hkne
    · have hb : ((get_messages st sid 100 0).length % 5 == 0 &&
          decide (0 < (get_messages st sid 100 0).length)) = true := by
        rw [hlen] at *
        simp only [Bool.and_eq_true, beq_iff_eq, decide_eq_true_eq]
        omega
      simp [hk0, hb]
    · by_cases hb : ((get_messages st sid 100 0).length % 5 == 0 &&
          decide (0 < (get_messages st sid 100 0).length)) = true
      · simp [hk0, hb]
      · simp only [hk0, if_false, Bool.if_false_left, hb, decide_eq_true_eq]
        simp [hb, ht]

/-- Witness for C9 at a concrete store: the session exists with empty
keywords, and `should_index` answers true. -/
theorem should_index_true_of_witness :
    get_session unindexedStore "w9" = some (sampleSession "w9") ∧
    ((sampleSession "w9").keywords = [] ∨
      (0 < (messages_of unindexedStore "w9").length ∧
        (messages_of unindexedStore "w9").length % 5 = 0) ∨
      600 < (0 : ℚ) - ((sampleSession "w9").updated_at : ℚ)) ∧
    should_index unindexedStore 0 "w9" = true :=
  ⟨rfl, Or.inl rfl,
    should_index_true_of unindexedStore 0 "w9" (sampleSession "w9") rfl (Or.inl rfl)⟩

/-- Helper: `index_session` on an existing session with no messages is a
no-op returning `False`. -/
theorem index_session_of_no_messages (embed? : Option (String → List ℚ)) (now : Int)
    (st : Store) (sid : String) (s : Session)
    (hs : get_session st sid = some s)
    (hm : messages_of st sid = []) :
    index_session embed? now st sid = (false, st) := by
  have h0 : get_messages st sid 1000 0 = [] :=
    (get_messages_eq_nil_iff st sid 1000 (by norm_num)).mpr hm
  unfold index_session
  rw [hs]
  simp [h0]

/-- C10: indexing a session that exists but has no messages fails and
leaves the whole store unchanged (no summary, keywords, token_count or
embedding write happens). -/
theorem index_session_no_messages (embed? : Option (String → List ℚ)) (now : Int)
    (st : Store) (sid : String) (s : Session)
    (hs : get_session st sid = some s)
    (hm : messages_of st sid = []) :
    index_session embed? now st sid = (false, st) :=
  index_session_of_no_messages embed? now st sid s hs hm

/-- Witness for C10 at a concrete store. -/
theorem index_session_no_messages_witness :
    get_session emptySessionStore "w10" = some (sampleSession "w10") ∧
    messages_of emptySessionStore "w10" = [] ∧
    index_session none 7 emptySessionStore "w10" = (false, emptySessionStore) :=
  ⟨rfl, rfl,
    index_session_no_messages none 7 emptySessionStore "w10" (sampleSession "w10") rfl rfl⟩

/-! ### What a successful `index_session` stores -/

theorem find?_map_update (l : List Session) (now : Int) (s : Session) (sid : String)
    (hid : s.id = sid) :
    (l.map (fun t => if t.id == s.id then { s with updated_at := now } else t)).find?
        (fun t => t.id == sid) =
      (l.find? (fun t => t.id == sid)).map (fun _ => { s with updated_at := now }) := by
  induction l with
  | nil => rfl
  | cons t ts ih =>
    rw [List.map_cons]
    by_cases h : t.id = sid
    · have h1 : (t.id == s.id) = true := by rw [hid]; exact beq_iff_eq.mpr h
      have h2 : ((({ s with updated_at := now } : Session)).id == sid) = true :=
        beq_iff_eq.mpr hid
      have h3 : (t.id == sid) = true := beq_iff_eq.mpr h
      rw [if_pos h1]
      simp only [List.find?_cons, h2, h3, Option.map_some']
    · have h1 : (t.id == s.id) = false := by
        rw [hid]
        exact beq_eq_false_iff_ne.mpr h
      have h3 : (t.id == sid) = false := beq_eq_false_iff_ne.mpr h
      rw [if_neg (by simp [h1])]
      simp only [List.find?_cons, h3, ih]

theorem sessions_update_embedding (st : Store) (sid : String) (e : List ℚ) :
    (update_embedding st sid e).sessions = st.sessions := by
  unfold update_embedding
  by_cases h : st.vec_available = true
  · simp [h]
  · simp [h]

theorem get_session_update_session (st : Store) (now : Int) (s : Session) (sid : String)
    (hid : s.id = sid) :
    get_session (update_session st now s) sid =
      (get_session st sid).map (fun _ => { s with updated_at := now }) := by
  unfold get_session update_session
  exact find?_map_update st.sessions now s sid hid

/-- A successful `index_session` stores, for the indexed session, exactly
the keywords, summary and token sum computed from its first 1000 messages,
and stamps `updated_at` with the write-back clock. -/
theorem index_session_found (embed? : Option (String → List ℚ)) (now : Int)
    (st : Store) (sid : String) (session : Session)
    (hs : get_session st sid = some session)
    (hm : ¬ (get_messages st sid 1000 0).isEmpty = true) :
    (index_session embed? now st sid).1 = true ∧
    get_session (index_session embed? now st sid).2 sid =
      some { session with
        keywords := extract_keywords (get_messages st sid 1000 0),
        summary := some (String.mk (generate_summary (get_messages st sid 1000 0))),
        token_count := ((get_messages st sid 1000 0).map (fun m => m.token_count)).sum,
        updated_at := now } := by
  have hid : session.id = sid := get_session_id st sid session hs
  set msgs := get_messages st sid 1000 0 with hmsgs
  set s1 : Session := { session with
    keywords := extract_keywords msgs,
    summary := some (String.mk (generate_summary msgs)),
    token_count := (msgs.map (fun m => m.token_count)).sum } with hs1
  have hid1 : s1.id = sid := hid
  have hupd : ∀ stx : Store, stx.sessions = (update_session st now s1).sessions →
      get_session stx sid = some { s1 with updated_at := now } := by
    intro stx hx
    unfold get_session
    rw [hx]
    show (st.sessions.map
        (fun t => if t.id == s1.id then { s1 with updated_at := now } else t)).find?
        (fun t => t.id == sid) = _
    rw [find?_map_update st.sessions now s1 sid hid1]
    have hs' : st.sessions.find? (fun t => t.id == sid) = some session := hs
    rw [hs', Option.map_some']
  unfold index_session
  rw [hs, ← hmsgs]
  simp only [hm, if_false, Bool.false_eq_true]
  cases embed? with
  | none => exact ⟨trivial, hupd _ rfl⟩
  | some f =>
    by_cases he : (f (embedding_text s1 msgs)).isEmpty = true
    · simp only [he, if_true]
      exact ⟨trivial, hupd _ rfl⟩
    · simp only [he, if_false]
      exact ⟨trivial, hupd _ (sessions_update_embedding _ _ _)⟩

/-! ### Keyword emptiness and summary length -/

theorem mem_dedupFirst (a : String) (l : List String) : a ∈ dedupFirst l ↔ a ∈ l := by
  induction l using dedupFirst.induct with
  | case1 => simp [dedupFirst]
  | case2 x xs ih =>
    rw [dedupFirst]
    constructor
    · intro h
      rcases List.mem_cons.mp h with h | h
      · exact h ▸ List.mem_cons_self _ _
      · exact List.mem_cons_of_mem _ (List.mem_filter.mp (ih.mp h)).1
    · intro h
      rcases List.mem_cons.mp h with h | h
      · exact h ▸ List.mem_cons_self _ _
      · by_cases hax : a = x
        · exact hax ▸ List.mem_cons_self _ _
        · refine List.mem_cons_of_mem _ (ih.mpr ?_)
          refine List.mem_filter.mpr ⟨h, ?_⟩
          simp [bne_iff_ne, hax]

theorem filter_dedupFirst_eq_nil_iff (q : String → Bool) (l : List String) :
    (dedupFirst l).filter q = [] ↔ l.filter q = [] := by
  rw [List.filter_eq_nil_iff, List.filter_eq_nil_iff]
  constructor
  · intro h a ha
    exact h a ((mem_dedupFirst a l).mpr ha)
  · intro h a ha
    exact h a ((mem_dedupFirst a l).mp ha)

/-- The keywords of `_extract_keywords` are empty exactly when no token of
the user text survives the stop-word/length filter. -/
theorem extract_keywords_eq_nil_iff (msgs : List Message) :
    extract_keywords msgs = [] ↔ qualifying_tokens msgs = [] := by
  unfold extract_keywords qualifying_tokens
  by_cases hut : (user_text msgs).isEmpty = true
  · have h0 : user_text msgs = [] := by simpa using hut
    rw [if_pos hut, h0]
    constructor
    · intro _
      rfl
    · intro _
      rfl
  · rw [if_neg hut]
    rw [List.take_eq_nil_iff, stableSort_eq_nil_iff, filter_dedupFirst_eq_nil_iff]
    constructor
    · rintro (h | h)
      · omega
      · exact h
    · intro h
      right
      exact h

/-- C2 counterexample: `index_session` succeeds on a session whose only
message is an assistant message, yet the stored keywords are empty — so
"after index_session returns true, the keywords are non-empty" is false,
and keywords-empty does not coincide with never-indexed. -/
theorem indexed_session_with_empty_keywords :
    (index_session none 5 assistantOnlyStore "s2").1 = true ∧
    (get_session (index_session none 5 assistantOnlyStore "s2").2 "s2").map
        (fun s => s.keywords) = some [] := by
  decide

/-- C2 (amended): after a successful `index_session`, the stored keywords
are exactly `extract_keywords` of the session's messages, and they are
empty iff the user text yields no token that survives the stop-word and
length-≥2 filter. -/
theorem keywords_after_index (embed? : Option (String → List ℚ)) (now : Int)
    (st : Store) (sid : String) (session : Session)
    (hs : get_session st sid = some session)
    (hok : (index_session embed? now st sid).1 = true) :
    (get_session (index_session embed? now st sid).2 sid).map (fun s => s.keywords) =
      some (extract_keywords (get_messages st sid 1000 0)) ∧
    (extract_keywords (get_messages st sid 1000 0) = [] ↔
      qualifying_tokens (get_messages st sid 1000 0) = []) := by
  have hm : ¬ (get_messages st sid 1000 0).isEmpty = true := by
    intro he
    have := index_session_of_no_messages embed? now st sid session hs
      ((get_messages_eq_nil_iff st sid 1000 (by norm_num)).mp (by simpa using he))
    rw [this] at hok
    simp at hok
  obtain ⟨-, h2⟩ := index_session_found embed? now st sid session hs hm
  rw [h2]
  exact ⟨rfl, extract_keywords_eq_nil_iff _⟩

/-- Witness for C2 at a concrete store. -/
theorem keywords_after_index_witness :
    get_session userStore "s3" = some (sampleSession "s3") ∧
    (index_session none 5 userStore "s3").1 = true ∧
    ((get_session (index_session none 5 userStore "s3").2 "s3").map
        (fun s => s.keywords) =
      some (extract_keywords (get_messages userStore "s3" 1000 0)) ∧
    (extract_keywords (get_messages userStore "s3" 1000 0) = [] ↔
      qualifying_tokens (get_messages userStore "s3" 1000 0) = [])) :=
  ⟨rfl, by decide,
    keywords_after_index none 5 userStore "s3" (sampleSession "s3") rfl (by decide)⟩

theorem length_truncPreview (content : List Char) :
    (truncPreview content).length ≤ 103 := by
  unfold truncPreview
  by_cases h : 100 < content.length
  · rw [if_pos h]
    simp [List.length_append, List.length_take]
  · rw [if_neg h]
    omega

/-- The summary built by `_generate_summary` never exceeds 203 characters:
the final trim cuts to 200 and appends the 3-char ellipsis. -/
theorem generate_summary_length_le (msgs : List Message) :
    (generate_summary msgs).length ≤ 203 := by
  unfold generate_summary
  by_cases h : (msgs.filter (fun m => m.role == "user")).isEmpty = true
  · rw [if_pos h]
    decide
  · rw [if_neg h]
    by_cases h2 : 200 <
        (joinSep " | ".data
          ((msgs.filter (fun m => m.role == "user")).take 3 |>.map
            (fun m => truncPreview m.content.data))).length
    · rw [if_pos h2]
      simp [List.length_append, List.length_take]
    · rw [if_neg h2]
      omega

/-- C3 counterexample: after a successful `index_session` the stored summary
has 203 characters, refuting the claimed 200-character bound (each truncated
piece and the final trim gain an appended `"..."`). -/
theorem summary_length_counterexample :
    (index_session none 5 longStore "s4").1 = true ∧
    (get_session (index_session none 5 longStore "s4").2 "s4").map
        (fun s => (s.summary.getD "").length) = some 203 := by
  decide

/-- C3 (amended): after a successful `index_session` the stored summary is
exactly `generate_summary` of the messages — the first up to three user
messages, each cut to 100 chars with `"..."` appended when longer, joined
with `" | "`, the whole cut to 200 chars with `"..."` appended when longer —
and its length is at most 203 characters. -/
theorem summary_after_index (embed? : Option (String → List ℚ)) (now : Int)
    (st : Store) (sid : String) (session : Session)
    (hs : get_session st sid = some session)
    (hok : (index_session embed? now st sid).1 = true) :
    (get_session (index_session embed? now st sid).2 sid).map (fun s => s.summary) =
      some (some (String.mk (generate_summary (get_messages st sid 1000 0)))) ∧
    (generate_summary (get_messages st sid 1000 0)).length ≤ 203 := by
  have hm : ¬ (get_messages st sid 1000 0).isEmpty = true := by
    intro he
    have := index_session_of_no_messages embed? now st sid session hs
      ((get_messages_eq_nil_iff st sid 1000 (by norm_num)).mp (by simpa using he))
    rw [this] at hok
    simp at hok
  obtain ⟨-, h2⟩ := index_session_found embed? now st sid session hs hm
  rw [h2]
  exact ⟨rfl, generate_summary_length_le _⟩

/-- Witness for C3 at a concrete store. -/
theorem summary_after_index_witness :
    get_session userStore "s3" = some (sampleSession "s3") ∧
    (index_session none 5 userStore "s3").1 = true ∧
    ((get_session (index_session none 5 userStore "s3").2 "s3").map
        (fun s => s.summary) =
      some (some (String.mk (generate_summary (get_messages userStore "s3" 1000 0)))) ∧
    (generate_summary (get_messages userStore "s3" 1000 0)).length ≤ 203) :=
  ⟨rfl, by decide,
    summary_after_index none 5 userStore "s3" (sampleSession "s3") rfl (by decide)⟩

/-! ### Hybrid search: exclusion and lexical-only scoring -/

theorem foldl_preserve {α β : Type} (P : β → Prop) (f : β → α → β) :
    ∀ (l : List α) (b : β), (∀ b0 a, a ∈ l → P b0 → P (f b0 a)) → P b → P (l.foldl f b) := by
  intro l
  induction l with
  | nil =>
    intro b _ hb
    exact hb
  | cons x xs ih =>
    intro b hf hb
    exact ih (f b x) (fun b0 a ha hp => hf b0 a (List.mem_cons_of_mem _ ha) hp)
      (hf b x (List.mem_cons_self _ _) hb)

/-- Where an entry of the dict can come from after one keyword upsert:
either it descends from an old entry (same session, same vector score,
keyword score possibly raised to `max` with the hit), or it is the freshly
created entry of a non-excluded hit. -/
theorem mem_upsertKeyword (st : Store) (ex : Option String)
    (acc : List (String × RecallResult)) (hit : String × ℚ)
    (p : String × RecallResult) (hp : p ∈ upsertKeyword st ex acc hit) :
    (∃ p0 ∈ acc, p.2.session = p0.2.session ∧ p.2.vector_score = p0.2.vector_score ∧
      (p.2.keyword_score = p0.2.keyword_score ∨
        p.2.keyword_score = max p0.2.keyword_score hit.2)) ∨
    (¬ ex = some hit.1 ∧ p.1 = hit.1 ∧ get_session st hit.1 = some p.2.session ∧
      p.2.vector_score = 0 ∧ p.2.keyword_score = hit.2) := by
  unfold upsertKeyword at hp
  by_cases hx : (ex == some hit.1) = true
  · rw [if_pos hx] at hp
    exact Or.inl ⟨p, hp, rfl, rfl, Or.inl rfl⟩
  · rw [if_neg hx] at hp
    by_cases hin : (acc.any (fun q => q.1 == hit.1)) = true
    · rw [if_pos hin] at hp
      obtain ⟨p0, hp0, hfe⟩ := List.mem_map.mp hp
      by_cases hk : (p0.1 == hit.1) = true
      · rw [if_pos hk] at hfe
        refine Or.inl ⟨p0, hp0, ?_⟩
        rw [← hfe]
        exact ⟨rfl, rfl, Or.inr rfl⟩
      · rw [if_neg hk] at hfe
        refine Or.inl ⟨p0, hp0, ?_⟩
        rw [← hfe]
        exact ⟨rfl, rfl, Or.inl rfl⟩
    · rw [if_neg hin] at hp
      cases hg : get_session st hit.1 with
      | some s =>
        rw [hg] at hp
        rcases List.mem_append.mp hp with h | h
        · exact Or.inl ⟨p, h, rfl, rfl, Or.inl rfl⟩
        · have hps : p = (hit.1, { session := s, keyword_score := hit.2, context_messages := get_recent_messages st hit.1 3 }) := by
            simpa using h
          subst hps
          refine Or.inr ⟨?_, rfl, rfl, rfl, rfl⟩
          intro hc
          rw [hc] at hx
          exact hx (by simp)
      | none =>
        rw [hg] at hp
        exact Or.inl ⟨p, hp, rfl, rfl, Or.inl rfl⟩

/-- As `mem_upsertKeyword`, for the vector loop. -/
theorem mem_upsertVector (st : Store) (ex : Option String)
    (acc : List (String × RecallResult)) (hit : String × ℚ)
    (p : String × RecallResult) (hp : p ∈ upsertVector st ex acc hit) :
    (∃ p0 ∈ acc, p.2.session = p0.2.session ∧ p.2.keyword_score = p0.2.keyword_score ∧
      (p.2.vector_score = p0.2.vector_score ∨
        p.2.vector_score = max p0.2.vector_score hit.2)) ∨
    (¬ ex = some hit.1 ∧ p.1 = hit.1 ∧ get_session st hit.1 = some p.2.session ∧
      p.2.keyword_score = 0 ∧ p.2.vector_score = hit.2) := by
  unfold upsertVector at hp
  by_cases hx : (ex == some hit.1) = true
  · rw [if_pos hx] at hp
    exact Or.inl ⟨p, hp, rfl, rfl, Or.inl rfl⟩
  · rw [if_neg hx] at hp
    by_cases hin : (acc.any (fun q => q.1 == hit.1)) = true
    · rw [if_pos hin] at hp
      obtain ⟨p0, hp0, hfe⟩ := List.mem_map.mp hp
      by_cases hk : (p0.1 == hit.1) = true
      · rw [if_pos hk] at hfe
        refine Or.inl ⟨p0, hp0, ?_⟩
        rw [← hfe]
        exact ⟨rfl, rfl, Or.inr rfl⟩
      · rw [if_neg hk] at hfe
        refine Or.inl ⟨p0, hp0, ?_⟩
        rw [← hfe]
        exact ⟨rfl, rfl, Or.inl rfl⟩
    · rw [if_neg hin] at hp
      cases hg : get_session st hit.1 with
      | some s =>
        rw [hg] at hp
        rcases List.mem_append.mp hp with h | h
        · exact Or.inl ⟨p, h, rfl, rfl, Or.inl rfl⟩
        · have hps : p = (hit.1, { session := s, vector_score := hit.2, context_messages := get_recent_messages st hit.1 3 }) := by
            simpa using h
          subst hps
          refine Or.inr ⟨?_, rfl, rfl, rfl, rfl⟩
          intro hc
          rw [hc] at hx
          exact hx (by simp)
      | none =>
        rw [hg] at hp
        exact Or.inl ⟨p, hp, rfl, rfl, Or.inl rfl⟩

/-- Every returned result of `search_hybrid` is the score-combination of an
entry of the merged dict. -/
theorem mem_search_hybrid (st : Store)
    (kwSearch : String → Nat → List (String × ℚ))
    (vecSearch : List ℚ → Nat → List (String × ℚ))
    (q : SearchQuery) (r : RecallResult)
    (hr : r ∈ search_hybrid st kwSearch vecSearch q) :
    ∃ p ∈ hybrid_merged st kwSearch vecSearch q, r = combineScores q p.2 := by
  simp only [search_hybrid] at hr
  have h1 := List.take_subset _ _ hr
  have h2 := (mem_stableSort _ _ _).mp h1
  obtain ⟨p, hp, he⟩ := List.mem_map.mp h2
  exact ⟨p, hp, he ▸ rfl⟩

/-- Every entry of the merged dict avoids the excluded session id: both
loops skip hits with the excluded id, updates keep the session, and new
entries carry the (non-excluded) hit id as their session id. -/
theorem hybrid_merged_excludes (st : Store)
    (kwSearch : String → Nat → List (String × ℚ))
    (vecSearch : List ℚ → Nat → List (String × ℚ))
    (q : SearchQuery) (ex : String)
    (hex : q.session_id_to_exclude = some ex) :
    ∀ p ∈ hybrid_merged st kwSearch vecSearch q, p.2.session.id ≠ ex := by
  have hstep_kw : ∀ (b0 : List (String × RecallResult)) (a : String × ℚ),
      (∀ p ∈ b0, p.2.session.id ≠ ex) →
      ∀ p ∈ upsertKeyword st q.session_id_to_exclude b0 a, p.2.session.id ≠ ex := by
    intro b0 a hP p hp
    rcases mem_upsertKeyword st _ b0 a p hp with ⟨p0, hp0, hsess, -, -⟩ | ⟨hne, -, hg, -, -⟩
    · rw [hsess]
      exact hP p0 hp0
    · rw [get_session_id st a.1 p.2.session hg]
      intro hc
      rw [hex, hc] at hne
      exact hne rfl
  have hstep_vec : ∀ (b0 : List (String × RecallResult)) (a : String × ℚ),
      (∀ p ∈ b0, p.2.session.id ≠ ex) →
      ∀ p ∈ upsertVector st q.session_id_to_exclude b0 a, p.2.session.id ≠ ex := by
    intro b0 a hP p hp
    rcases mem_upsertVector st _ b0 a p hp with ⟨p0, hp0, hsess, -, -⟩ | ⟨hne, -, hg, -, -⟩
    · rw [hsess]
      exact hP p0 hp0
    · rw [get_session_id st a.1 p.2.session hg]
      intro hc
      rw [hex, hc] at hne
      exact hne rfl
  have hkwpass : ∀ p ∈ hybrid_keyword_pass st kwSearch q, p.2.session.id ≠ ex := by
    unfold hybrid_keyword_pass
    split
    · rename_i t heq
      by_cases hte : t.data.isEmpty = true
      · rw [if_pos hte]
        intro p hp
        cases hp
      · rw [if_neg hte]
        refine foldl_preserve
          (fun (acc : List (String × RecallResult)) => ∀ p ∈ acc, p.2.session.id ≠ ex)
          _ _ _ ?_ ?_
        · intro b0 a _ hP
          exact hstep_kw b0 a hP
        · intro p hp
          cases hp
    · intro p hp
      cases hp
  unfold hybrid_merged
  split
  · rename_i e heq
    by_cases he : e.isEmpty = true
    · rw [if_pos he]
      exact hkwpass
    · rw [if_neg he]
      refine foldl_preserve
        (fun (acc : List (String × RecallResult)) => ∀ p ∈ acc, p.2.session.id ≠ ex)
        _ _ _ ?_ hkwpass
      intro b0 a _ hP
      exact hstep_vec b0 a hP
  · exact hkwpass

/-- C5: when `session_id_to_exclude` is set, no result of the hybrid search
has that session id, whether the session matched the keyword leg, the
vector leg, or both. -/
theorem search_hybrid_excludes (st : Store)
    (kwSearch : String → Nat → List (String × ℚ))
    (vecSearch : List ℚ → Nat → List (String × ℚ))
    (q : SearchQuery) (ex : String)
    (hex : q.session_id_to_exclude = some ex) :
    ∀ r ∈ search_hybrid st kwSearch vecSearch q, r.session.id ≠ ex := by
  intro r hr
  obtain ⟨p, hp, he⟩ := mem_search_hybrid st kwSearch vecSearch q r hr
  have := hybrid_merged_excludes st kwSearch vecSearch q ex hex p hp
  rw [he]
  exact this

/-- Witness for C5 at a concrete store, query and legs. -/
theorem search_hybrid_excludes_witness :
    wQueryExclude.session_id_to_exclude = some "cur" ∧
    "cur" ∉ (search_hybrid twoSessionStore wKwSearch wVecSearch wQueryExclude).map
      (fun r => r.session.id) := by
  refine ⟨rfl, ?_⟩
  intro hmem
  obtain ⟨r, hr, hid⟩ := List.mem_map.mp hmem
  exact search_hybrid_excludes twoSessionStore wKwSearch wVecSearch wQueryExclude "cur"
    rfl r hr hid

/-- When the vector loop never runs (no embedding, or an empty vector-leg
answer) every dict entry keeps `vector_score = 0`, and its keyword score
stays at most 1 when the keyword leg only produces scores at most 1. -/
theorem hybrid_merged_lexical (st : Store)
    (kwSearch : String → Nat → List (String × ℚ))
    (vecSearch : List ℚ → Nat → List (String × ℚ))
    (q : SearchQuery) (t : String)
    (ht : q.text = some t)
    (hvec : q.embedding.elim True (fun e => vecSearch e (q.top_k * 2) = []))
    (hkw : (kwSearch t (q.top_k * 2)).all (fun p => decide (p.2 ≤ 1)) = true) :
    ∀ p ∈ hybrid_merged st kwSearch vecSearch q,
      p.2.vector_score = 0 ∧ p.2.keyword_score ≤ 1 := by
  have hkw1 : ∀ p ∈ kwSearch t (q.top_k * 2), p.2 ≤ 1 := by
    intro p hp
    have := List.all_eq_true.mp hkw p hp
    simpa using this
  have hpass : ∀ p ∈ hybrid_keyword_pass st kwSearch q,
      p.2.vector_score = 0 ∧ p.2.keyword_score ≤ 1 := by
    unfold hybrid_keyword_pass
    rw [ht]
    simp only []
    by_cases hte : t.data.isEmpty = true
    · rw [if_pos hte]
      intro p hp
      cases hp
    · rw [if_neg hte]
      refine foldl_preserve
        (fun (acc : List (String × RecallResult)) =>
          ∀ p ∈ acc, p.2.vector_score = 0 ∧ p.2.keyword_score ≤ 1) _ _ _ ?_ ?_
      · intro b0 a ha hP p hp
        rcases mem_upsertKeyword st _ b0 a p hp with
          ⟨p0, hp0, -, hveq, hkq⟩ | ⟨-, -, -, hv0, hke⟩
        · obtain ⟨h1, h2⟩ := hP p0 hp0
          refine ⟨by rw [hveq, h1], ?_⟩
          rcases hkq with h | h
          · rw [h]
            exact h2
          · rw [h]
            exact max_le h2 (hkw1 a ha)
        · exact ⟨hv0, hke ▸ hkw1 a ha⟩
      · intro p hp
        cases hp
  unfold hybrid_merged
  rcases hqe : q.embedding with - | e
  · simp only []
    exact hpass
  · simp only []
    rw [hqe] at hvec
    simp only [Option.elim] at hvec
    by_cases he : e.isEmpty = true
    · rw [if_pos he]
      exact hpass
    · rw [if_neg he, hvec]
      exact hpass

/-- C7: for a query with text but no embedding (or a vector leg that
returns no rows, as `search_by_vector` does when sqlite-vec is absent),
every result has `vector_score = 0` and
`combined_score = keyword_weight * keyword_score`; the keyword leg's scores
are at most 1, as `bm25_similarity` guarantees for the SQLite backend. -/
theorem search_hybrid_lexical_only (st : Store)
    (kwSearch : String → Nat → List (String × ℚ))
    (vecSearch : List ℚ → Nat → List (String × ℚ))
    (q : SearchQuery) (t : String)
    (ht : q.text = some t)
    (hvec : q.embedding.elim True (fun e => vecSearch e (q.top_k * 2) = []))
    (hkw : (kwSearch t (q.top_k * 2)).all (fun p => decide (p.2 ≤ 1)) = true) :
    ∀ r ∈ search_hybrid st kwSearch vecSearch q,
      r.vector_score = 0 ∧ r.combined_score = q.keyword_weight * r.keyword_score := by
  intro r hr
  obtain ⟨p, hp, he⟩ := mem_search_hybrid st kwSearch vecSearch q r hr
  obtain ⟨h1, h2⟩ := hybrid_merged_lexical st kwSearch vecSearch q t ht hvec hkw p hp
  rw [he]
  refine ⟨h1, ?_⟩
  show min p.2.vector_score 1 * q.vector_weight +
      min p.2.keyword_score 1 * q.keyword_weight = q.keyword_weight * p.2.keyword_score
  rw [h1, min_eq_left h2, min_eq_left (zero_le_one)]
  ring

/-- Witness for C7 at a concrete store, query and legs. -/
theorem search_hybrid_lexical_only_witness :
    wQueryLexical.text = some "Message" ∧
    wQueryLexical.embedding.elim True
      (fun e => wVecSearch e (wQueryLexical.top_k * 2) = []) ∧
    (wKwSearch "Message" (wQueryLexical.top_k * 2)).all
      (fun p => decide (p.2 ≤ 1)) = true ∧
    (search_hybrid twoSessionStore wKwSearch wVecSearch wQueryLexical).all
      (fun r => decide (r.vector_score = 0) &&
        decide (r.combined_score = wQueryLexical.keyword_weight * r.keyword_score)) = true := by
  refine ⟨rfl, trivial, by decide, ?_⟩
  rw [List.all_eq_true]
  intro r hr
  have h := search_hybrid_lexical_only twoSessionStore wKwSearch wVecSearch wQueryLexical
    "Message" rfl trivial (by decide) r hr
  simp [h.1, h.2]

/-! ### Time decay (C6) -/

/-- C6: the recall engine multiplies each combined score by
`exp(-0.001 * (now - updated_at) / 86400)`; for a non-negative pre-decay
score the decayed score is monotone non-increasing in `now - updated_at`,
so of two results with equal pre-decay scores the fresher one (larger
`updated_at`) ranks no lower. -/
theorem decayed_score_antitone (s now1 u1 now2 u2 : ℝ)
    (hs : 0 ≤ s) (h : now1 - u1 ≤ now2 - u2) :
    decayed_score s now2 u2 ≤ decayed_score s now1 u1 ∧
    decayed_score s now1 u1 = s * Real.exp (-(0.001) * ((now1 - u1) / 86400)) := by
  constructor
  · unfold decayed_score time_decay_factor
    apply mul_le_mul_of_nonneg_left _ hs
    rw [Real.exp_le_exp]
    have h3 : (now1 - u1) / 86400 ≤ (now2 - u2) / 86400 := by linarith
    nlinarith [h3]
  · rfl

/-- Witness for C6 at concrete reals: score 1, the second result one day
younger. -/
theorem decayed_score_antitone_witness :
    (0 : ℝ) ≤ 1 ∧ (10 : ℝ) - 5 ≤ 10 - 2 ∧
    (decayed_score 1 10 2 ≤ decayed_score 1 10 5 ∧
      decayed_score 1 10 5 = 1 * Real.exp (-(0.001) * (((10 : ℝ) - 5) / 86400))) :=
  ⟨by norm_num, by norm_num,
    decayed_score_antitone 1 10 5 10 2 (by norm_num) (by norm_num)⟩

/-! ### Mock embedding (C8) -/

theorem sumSq_nonneg (v : List ℚ) : 0 ≤ sumSq v := by
  unfold sumSq
  apply List.sum_nonneg
  intro x hx
  obtain ⟨y, hy, hyx⟩ := List.mem_map.mp hx
  rw [← hyx]
  exact mul_self_nonneg y

theorem sumSq_cast (v : List ℚ) :
    (Rat.cast (sumSq v) : ℝ) = ((v.map (fun x => (Rat.cast x : ℝ))).map (fun x => x * x)).sum := by
  induction v with
  | nil => simp [sumSq]
  | cons x xs ih =>
    rw [show sumSq (x :: xs) = x * x + sumSq xs from by
      simp [sumSq, List.map_cons, List.sum_cons]]
    push_cast
    push_cast at ih
    rw [ih]
    simp [List.map_cons, List.sum_cons]

theorem sum_sq_div (l : List ℝ) (c : ℝ) :
    ((l.map (fun x => x / c)).map (fun x => x * x)).sum
      = (l.map (fun x => x * x)).sum / (c * c) := by
  induction l with
  | nil => simp
  | cons x xs ih =>
    simp only [List.map_cons, List.sum_cons, ih]
    rw [div_mul_div_comm, div_add_div_same]

/-- C8: the fallback (mock) embedding is a pure function of the text (the
RNG is freshly seeded from the text's MD5, modelled by the abstract seed
and stream functions), always has 384 components, and — whenever the drawn
vector is not identically zero, the only case in which the code normalizes —
its L2 norm is exactly 1, hence within `[1 - 1e-6, 1 + 1e-6]`. -/
theorem mock_embed_contract (md5 : String → ℕ) (draw : ℕ → ℕ → ℚ) (t : String)
    (h : sumSq (mock_draws md5 draw t) ≠ 0) :
    mock_embed md5 draw t = mock_embed md5 draw t ∧
    (mock_embed md5 draw t).length = 384 ∧
    1 - 1 / 1000000 ≤ l2norm (mock_embed md5 draw t) ∧
    l2norm (mock_embed md5 draw t) ≤ 1 + 1 / 1000000 := by
  have hpos : 0 < sumSq (mock_draws md5 draw t) :=
    lt_of_le_of_ne (sumSq_nonneg _) (Ne.symm h)
  have hlen : (mock_embed md5 draw t).length = 384 := by
    unfold mock_embed
    rw [if_pos hpos, List.length_map, List.length_map]
    unfold mock_draws
    rw [List.length_map, List.length_range]
  have hnorm : l2norm (mock_embed md5 draw t) = 1 := by
    unfold mock_embed l2norm
    rw [if_pos hpos]
    have hSpos : (0 : ℝ) < (Rat.cast (sumSq (mock_draws md5 draw t)) : ℝ) := by
      exact_mod_cast hpos
    have hsq : Real.sqrt (Rat.cast (sumSq (mock_draws md5 draw t)) : ℝ) *
        Real.sqrt (Rat.cast (sumSq (mock_draws md5 draw t)) : ℝ) =
        (Rat.cast (sumSq (mock_draws md5 draw t)) : ℝ) :=
      Real.mul_self_sqrt (le_of_lt hSpos)
    rw [sum_sq_div, ← sumSq_cast, hsq, div_self (ne_of_gt hSpos), Real.sqrt_one]
  refine ⟨rfl, hlen, ?_, ?_⟩
  · rw [hnorm]
    norm_num
  · rw [hnorm]
    norm_num

/-- Witness for C8: constant draw stream of 1s, so the sum of squares is
384 and the hypothesis holds. -/
theorem mock_embed_contract_witness :
    sumSq (mock_draws (fun _ => 0) (fun _ _ => 1) "a") ≠ 0 ∧
    (mock_embed (fun _ => 0) (fun _ _ => 1) "a" =
      mock_embed (fun _ => 0) (fun _ _ => 1) "a" ∧
    (mock_embed (fun _ => 0) (fun _ _ => 1) "a").length = 384 ∧
    1 - 1 / 1000000 ≤ l2norm (mock_embed (fun _ => 0) (fun _ _ => 1) "a") ∧
    l2norm (mock_embed (fun _ => 0) (fun _ _ => 1) "a") ≤ 1 + 1 / 1000000) := by
  have hdraws : mock_draws (fun _ => 0) (fun _ _ => 1) "a" = List.replicate 384 (1 : ℚ) := by
    unfold mock_draws
    exact List.map_const (List.range 384) (1 : ℚ) |>.trans (by rw [List.length_range])
  have h : sumSq (mock_draws (fun _ => 0) (fun _ _ => 1) "a") ≠ 0 := by
    rw [hdraws]
    rw [show sumSq (List.replicate 384 (1 : ℚ)) = 384 from by
      rw [sumSq, List.map_replicate, List.sum_replicate, nsmul_eq_mul]
      norm_num]
    norm_num
  exact ⟨h,
    (mock_embed_contract (fun _ => 0) (fun _ _ => 1) "a" h).1,
    (mock_embed_contract (fun _ => 0) (fun _ _ => 1) "a" h).2.1,
    (mock_embed_contract (fun _ => 0) (fun _ _ => 1) "a" h).2.2.1,
    (mock_embed_contract (fun _ => 0) (fun _ _ => 1) "a" h).2.2.2⟩

/-! ### Query classifier (C4) -/

/-- C4 counterexample: the claim says the classifier maps
`"那个 bug 怎么修"` to `vague_recall` with weights (0.8, 0.2); it does not. -/
theorem analyze_vague_bug_query_not_vague :
    analyze "那个 bug 怎么修" ≠ ("vague_recall", 0.8, 0.2) := by
  intro hc
  have h1 : (analyze "那个 bug 怎么修").1 = "vague_recall" := congrArg Prod.fst hc
  have h2 : (analyze "那个 bug 怎么修").1 = "error_debug" := rfl
  rw [h2] at h1
  exact absurd h1 (by decide)

/-- C4 (amended): `"那个 bug 怎么修"` contains the error token `bug`, and
the error_debug class precedes vague_recall in the first-match order
(file_lookup, error_debug, vague_recall, technical), so the classifier
returns `error_debug` with weights (0.5, 0.5). -/
theorem analyze_vague_bug_query :
    analyze "那个 bug 怎么修" = ("error_debug", 0.5, 0.5) := by
  rfl

end KimiMemory
